import Mathlib

/-!
# Verification of the bfetch streaming batch-response multiplexer and helpers

Shallow embedding of the fragments in this snapshot:

* `getResponseStream` (bfetch server plugin, `addBatchProcessingRoute`): the
  streaming batch-response multiplexer.  The JS code dispatches one async task
  per batch item; each task awaits the per-item handler, pushes a tagged
  result or a normalized error onto an rxjs `Subject`, decrements a shared
  countdown, and completes the subject when the countdown hits zero.  In the
  embedding the per-item handler is a pure `D → Except Err R` and a run of the
  multiplexer is a fold of the completion callback over an explicit
  *completion order* (the order in which the awaited handlers settle).
* the streaming-response route registration (`addStreamingResponseRoute`):
  body validation and response headers.
* `firstNonNullValue` over `ECSField` values.
* the final filter/sort of the fleet data-streams `getListHandler`.
-/

/-- One record of the response stream: the bfetch `BatchResponseItem` tagged
union `{id, result}` / `{id, error}`. -/
inductive BatchResponseItem (R E : Type) : Type where
  | result (id : Nat) (r : R)
  | error (id : Nat) (e : E)
deriving DecidableEq, Repr

namespace BatchResponseItem

/-- The `id` field of a response record. -/
def itemId {R E : Type} : BatchResponseItem R E → Nat
  | .result id _ => id
  | .error id _ => id

/-- Whether the record carries a `result` field. -/
def isResultItem {R E : Type} : BatchResponseItem R E → Bool
  | .result _ _ => true
  | .error _ _ => false

/-- Whether the record carries an `error` field. -/
def isErrorItem {R E : Type} : BatchResponseItem R E → Bool
  | .result _ _ => false
  | .error _ _ => true

end BatchResponseItem

open BatchResponseItem

/-- State of the rxjs `Subject` together with the multiplexer's countdown
`cnt`: the records emitted so far (`next` calls observed downstream), the
remaining countdown, and whether `complete` has been signalled. -/
structure MuxState (R E : Type) : Type where
  emitted : List (BatchResponseItem R E)
  cnt : Nat
  closed : Bool
deriving DecidableEq, Repr

/-- Semantics of `subject.next(item)`: an rxjs Subject forwards a value to
observers only while it is not yet completed. -/
def subjectNext {R E : Type} (st : MuxState R E) (item : BatchResponseItem R E) :
    MuxState R E :=
  if st.closed then st else { st with emitted := st.emitted ++ [item] }

/-- Semantics of `subject.complete()`. -/
def subjectComplete {R E : Type} (st : MuxState R E) : MuxState R E :=
  { st with closed := true }

/-- The `try { ... } catch (err) { ... }` body of one batch-item task: run the
handler on the item's payload and build the tagged record, normalizing a
failure into the error variant. -/
def attemptItem {D R Err E : Type} (handler : D → Except Err R) (normalize : Err → E)
    (id : Nat) (d : D) : BatchResponseItem R E :=
  match handler d with
  | .ok r => .result id r
  | .error err => .error id (normalize err)

/-- The record produced for input index `id` of `batch`, if `id` is in range. -/
def attemptAt {D R Err E : Type} (batch : List D) (handler : D → Except Err R)
    (normalize : Err → E) (id : Nat) : Option (BatchResponseItem R E) :=
  (batch.get? id).map (attemptItem handler normalize id)

/-- One completion callback of the multiplexer, for the item at index `id`:
`subject.next` of the tagged record (try/catch), then the `finally` block
`cnt--; if (!cnt) subject.complete()`.  An out-of-range index corresponds to
no task and leaves the state unchanged. -/
def muxStep {D R Err E : Type} (batch : List D) (handler : D → Except Err R)
    (normalize : Err → E) (st : MuxState R E) (id : Nat) : MuxState R E :=
  match batch.get? id with
  | none => st
  | some d =>
    let st1 := subjectNext st (attemptItem handler normalize id d)
    let st2 : MuxState R E := { st1 with cnt := st1.cnt - 1 }
    if st2.cnt = 0 then subjectComplete st2 else st2

/-- The state of the subject right after `getResponseStream` returns: nothing
emitted, countdown `cnt = batch.length`, not completed. -/
def muxInit {R E : Type} {D : Type} (batch : List D) : MuxState R E :=
  { emitted := [], cnt := batch.length, closed := false }

/-- A full run of `getResponseStream ({batch}) => ...`: all `batch.length`
tasks are dispatched at call time, and their completion callbacks run one
after another on the single-threaded event loop in the order `order` in which
the awaited handlers settle. -/
def getResponseStream {D R Err E : Type} (batch : List D) (handler : D → Except Err R)
    (normalize : Err → E) (order : List Nat) : MuxState R E :=
  order.foldl (muxStep batch handler normalize) (muxInit batch)

/-- State evolution of the multiplexer: folding the completion callback over a
list `l` of in-range indices, starting from a not-yet-completed state whose
countdown is at least `l.length`, appends exactly the records of `l`'s items,
decreases the countdown by `l.length`, and completes the subject exactly when
the countdown is consumed (and there was a callback to consume it). -/
theorem muxRun_spec {D R Err E : Type} (batch : List D) (handler : D → Except Err R)
    (normalize : Err → E) :
    ∀ (l : List Nat) (st : MuxState R E),
      (∀ x ∈ l, x < batch.length) → st.closed = false → l.length ≤ st.cnt →
      (l.foldl (muxStep batch handler normalize) st).emitted
          = st.emitted ++ l.filterMap (attemptAt batch handler normalize) ∧
      (l.foldl (muxStep batch handler normalize) st).cnt = st.cnt - l.length ∧
      ((l.foldl (muxStep batch handler normalize) st).closed = true ↔
        (l.length = st.cnt ∧ st.cnt ≠ 0)) := by
  intro l
  induction l with
  | nil =>
    intro st _ hclosed hlen
    refine ⟨by simp, by simp, ?_⟩
    simp only [List.foldl_nil, hclosed, List.length_nil]
    constructor
    · intro h; exact absurd h (by simp)
    · rintro ⟨h0, hne⟩; exact absurd h0.symm hne
  | cons x xs ih =>
    intro st hmem hclosed hlen
    have hx : x < batch.length := hmem x (List.mem_cons_self x xs)
    have hd : batch[x]? = some batch[x] := List.getElem?_eq_getElem hx
    have hcnt1 : 1 ≤ st.cnt := by
      have := hlen; simp only [List.length_cons] at this; omega
    have hattempt : attemptAt batch handler normalize x
        = some (attemptItem handler normalize x batch[x]) := by
      simp [attemptAt, List.get?_eq_getElem?, hd]
    by_cases hone : st.cnt - 1 = 0
    · -- the countdown is consumed by this callback; xs must be empty
      have hcnt : st.cnt = 1 := by omega
      have hxs : xs = [] := by
        have := hlen; simp only [List.length_cons, hcnt] at this
        exact List.length_eq_zero.mp (by omega)
      subst hxs
      have hstep : muxStep batch handler normalize st x =
          ⟨st.emitted ++ [attemptItem handler normalize x batch[x]], 0, true⟩ := by
        simp [muxStep, List.get?_eq_getElem?, hd, subjectNext, subjectComplete, hclosed, hone]
      simp only [List.foldl_cons, List.foldl_nil, hstep]
      refine ⟨by simp [hattempt], by simp [hcnt], by simp [hcnt]⟩
    · -- countdown still positive: recurse on the tail from the updated state
      have hstep : muxStep batch handler normalize st x =
          ⟨st.emitted ++ [attemptItem handler normalize x batch[x]],
            st.cnt - 1, false⟩ := by
        simp [muxStep, List.get?_eq_getElem?, hd, subjectNext, subjectComplete, hclosed, hone]
      have hxs_mem : ∀ y ∈ xs, y < batch.length := fun y hy =>
        hmem y (List.mem_cons_of_mem x hy)
      have hxs_len : xs.length ≤ st.cnt - 1 := by
        have := hlen; simp only [List.length_cons] at this; omega
      obtain ⟨ih1, ih2, ih3⟩ :=
        ih ⟨st.emitted ++ [attemptItem handler normalize x batch[x]],
          st.cnt - 1, false⟩ hxs_mem rfl hxs_len
      rw [List.foldl_cons, hstep]
      refine ⟨?_, ?_, ?_⟩
      · rw [ih1]; simp [hattempt, List.filterMap_cons]
      · rw [ih2]; simp only [List.length_cons]; omega
      · rw [ih3]; simp only [List.length_cons]; omega

/-- The record built for index `id` of the batch, when `id` is in range. -/
theorem attemptAt_eq_some {D R Err E : Type} (batch : List D) (handler : D → Except Err R)
    (normalize : Err → E) (id : Nat) (h : id < batch.length) :
    attemptAt batch handler normalize id
      = some (attemptItem handler normalize id batch[id]) := by
  simp [attemptAt, List.get?_eq_getElem?, List.getElem?_eq_getElem h]

/-- The `id` field of the record built for index `id` is `id` itself, for both
the success and the failure branch of the try/catch. -/
theorem itemId_attemptItem {D R Err E : Type} (handler : D → Except Err R)
    (normalize : Err → E) (id : Nat) (d : D) :
    itemId (attemptItem handler normalize id d) = id := by
  unfold attemptItem
  cases handler d <;> rfl

/-- Projecting the records of a run onto their `id` fields recovers the
completion order. -/
theorem filterMap_attemptAt_ids {D R Err E : Type} (batch : List D)
    (handler : D → Except Err R) (normalize : Err → E) :
    ∀ (l : List Nat), (∀ x ∈ l, x < batch.length) →
      (l.filterMap (attemptAt batch handler normalize)).map itemId = l := by
  intro l
  induction l with
  | nil => intro _; simp
  | cons x xs ih =>
    intro hmem
    have hx : x < batch.length := hmem x (List.mem_cons_self x xs)
    rw [List.filterMap_cons, attemptAt_eq_some batch handler normalize x hx]
    simp only [List.map_cons, itemId_attemptItem]
    rw [ih (fun y hy => hmem y (List.mem_cons_of_mem x hy))]

/-- One record per completion. -/
theorem filterMap_attemptAt_length {D R Err E : Type} (batch : List D)
    (handler : D → Except Err R) (normalize : Err → E) (l : List Nat)
    (hmem : ∀ x ∈ l, x < batch.length) :
    (l.filterMap (attemptAt batch handler normalize)).length = l.length := by
  have := congrArg List.length (filterMap_attemptAt_ids batch handler normalize l hmem)
  simpa using this

/-- A full run of the multiplexer over a completion order that is a
permutation of the input indices: the emitted records are exactly the
per-index records in completion order, the countdown is exhausted, and the
stream is completed exactly for nonempty batches. -/
theorem getResponseStream_run {D R Err E : Type} (batch : List D)
    (handler : D → Except Err R) (normalize : Err → E) (order : List Nat)
    (hperm : order.Perm (List.range batch.length)) :
    (getResponseStream batch handler normalize order).emitted
        = order.filterMap (attemptAt batch handler normalize) ∧
    (getResponseStream batch handler normalize order).cnt = 0 ∧
    ((getResponseStream batch handler normalize order).closed = true ↔
      batch.length ≠ 0) := by
  have hvalid : ∀ x ∈ order, x < batch.length := fun x hx =>
    List.mem_range.mp (hperm.mem_iff.mp hx)
  have hlen : order.length = batch.length := by
    rw [hperm.length_eq, List.length_range]
  obtain ⟨h1, h2, h3⟩ := muxRun_spec batch handler normalize order (muxInit batch)
    hvalid rfl (by simp [muxInit, hlen])
  refine ⟨by simpa [muxInit, getResponseStream] using h1,
    by simpa [muxInit, getResponseStream, hlen] using h2, ?_⟩
  rw [getResponseStream, h3]
  have hc : (muxInit (R := R) (E := E) batch).cnt = batch.length := rfl
  rw [hc, hlen]
  omega

/-- C1: for every batch of size N processed by `getResponseStream` (over any
completion order of its N dispatched tasks), exactly N `BatchResponseItem`
records are emitted, their `id` fields are pairwise distinct and each lies in
`[0, N)`, and at every point of the run the subject has been completed if and
only if the Nth response record has been emitted (an event that exists only
for N ≥ 1; for N = 0 no record and no completion signal ever occurs). -/
theorem getResponseStream_emits_batch_invariant {D R Err E : Type} (batch : List D)
    (handler : D → Except Err R) (normalize : Err → E) (order : List Nat)
    (hperm : order.Perm (List.range batch.length)) :
    (getResponseStream batch handler normalize order).emitted.length = batch.length ∧
    ((getResponseStream batch handler normalize order).emitted.map itemId).Nodup ∧
    (∀ i ∈ (getResponseStream batch handler normalize order).emitted.map itemId,
        i < batch.length) ∧
    (∀ k : Nat,
      ((getResponseStream batch handler normalize (order.take k)).closed = true ↔
        (batch.length ≤
            (getResponseStream batch handler normalize (order.take k)).emitted.length ∧
          1 ≤ batch.length))) := by
  have hvalid : ∀ x ∈ order, x < batch.length := fun x hx =>
    List.mem_range.mp (hperm.mem_iff.mp hx)
  have hlen : order.length = batch.length := by
    rw [hperm.length_eq, List.length_range]
  obtain ⟨h1, _, _⟩ := getResponseStream_run batch handler normalize order hperm
  have hids : (getResponseStream batch handler normalize order).emitted.map itemId
      = order := by
    rw [h1, filterMap_attemptAt_ids batch handler normalize order hvalid]
  refine ⟨?_, ?_, ?_, ?_⟩
  · have := congrArg List.length hids
    simpa [hlen] using this
  · rw [hids]
    exact hperm.nodup_iff.mpr (List.nodup_range _)
  · rw [hids]
    exact hvalid
  · intro k
    have hvalid' : ∀ x ∈ order.take k, x < batch.length := fun x hx =>
      hvalid x (List.take_subset k order hx)
    have hlen' : (order.take k).length ≤ batch.length := by
      rw [List.length_take]
      omega
    obtain ⟨p1, _, p3⟩ := muxRun_spec batch handler normalize (order.take k)
      (muxInit batch) hvalid' rfl (by simpa [muxInit] using hlen')
    have hplen : (List.foldl (muxStep batch handler normalize) (muxInit batch)
        (order.take k)).emitted.length = (order.take k).length := by
      rw [p1]
      simpa [muxInit] using
        filterMap_attemptAt_length batch handler normalize (order.take k) hvalid'
    rw [getResponseStream, p3, hplen]
    have hc : (muxInit (R := R) (E := E) batch).cnt = batch.length := rfl
    rw [hc]
    omega

/-- C1 witness: size-2 batch with completion order `[1, 0]`. -/
theorem getResponseStream_emits_batch_invariant_witness :
    ([1, 0] : List Nat).Perm (List.range ([10, 20] : List Nat).length) ∧
    (getResponseStream [10, 20] (fun d : Nat => (Except.ok d : Except Unit Nat))
        (fun e : Unit => e) [1, 0]).emitted.length = ([10, 20] : List Nat).length :=
  ⟨by decide,
    (getResponseStream_emits_batch_invariant [10, 20]
      (fun d : Nat => (Except.ok d : Except Unit Nat)) (fun e : Unit => e) [1, 0]
      (by decide)).1⟩

/-- C2 counterexample: for the empty batch the code never calls
`subject.complete()` — the countdown starts at 0 but completion is only
signalled inside a per-item completion callback, and `[].forEach` dispatches
none — so the stream is *not* closed, contradicting the claim that a length-0
batch immediately yields a closed stream. -/
theorem getResponseStream_empty_not_closed :
    (getResponseStream ([] : List Nat) (fun d : Nat => (Except.ok d : Except Unit Nat))
        (fun e : Unit => e) []).closed = false ∧
    (getResponseStream ([] : List Nat) (fun d : Nat => (Except.ok d : Except Unit Nat))
        (fun e : Unit => e) []).emitted = [] :=
  ⟨rfl, rfl⟩

/-- C2 (amended): for the empty batch (N = 0), the multiplexer emits zero
records, the countdown is 0, but no completion signal is ever issued: the
stream is never closed, because `subject.complete()` is reachable only from a
batch item's completion callback and no item is ever dispatched. -/
theorem getResponseStream_empty_amended {D R Err E : Type} (handler : D → Except Err R)
    (normalize : Err → E) :
    (getResponseStream ([] : List D) handler normalize []).emitted
        = ([] : List (BatchResponseItem R E)) ∧
    (getResponseStream ([] : List D) handler normalize []).cnt = 0 ∧
    (getResponseStream ([] : List D) handler normalize []).closed = false :=
  ⟨rfl, rfl, rfl⟩

/-- The record emitted at position `p` of a run is the record of the item that
completed `p`-th. -/
theorem filterMap_attemptAt_get? {D R Err E : Type} (batch : List D)
    (handler : D → Except Err R) (normalize : Err → E) :
    ∀ (l : List Nat), (∀ x ∈ l, x < batch.length) → ∀ (p : Nat),
      (l.filterMap (attemptAt batch handler normalize)).get? p
        = (l.get? p).bind (attemptAt batch handler normalize) := by
  intro l
  induction l with
  | nil => intro _ p; simp
  | cons x xs ih =>
    intro hmem p
    have hx : x < batch.length := hmem x (List.mem_cons_self x xs)
    rw [List.filterMap_cons, attemptAt_eq_some batch handler normalize x hx]
    cases p with
    | zero =>
      simp [attemptAt_eq_some batch handler normalize x hx]
    | succ q =>
      simpa using ih (fun y hy => hmem y (List.mem_cons_of_mem x hy)) q

/-- Every record of a run originates from an in-range index of the completion
order and is the try/catch record of that index's payload. -/
theorem mem_emitted_attemptAt {D R Err E : Type} (batch : List D)
    (handler : D → Except Err R) (normalize : Err → E) (l : List Nat)
    (hmem : ∀ x ∈ l, x < batch.length) {it : BatchResponseItem R E}
    (h : it ∈ l.filterMap (attemptAt batch handler normalize)) :
    ∃ (id : Nat) (hid : id < batch.length), id ∈ l ∧
      it = attemptItem handler normalize id batch[id] := by
  obtain ⟨id, hidl, hsome⟩ := List.mem_filterMap.mp h
  have hid : id < batch.length := hmem id hidl
  rw [attemptAt_eq_some batch handler normalize id hid] at hsome
  exact ⟨id, hid, hidl, (Option.some.inj hsome).symm⟩

/-- C4: emission order equals completion order.  If item `j`'s execution
completes before item `i`'s (it occurs earlier in the completion order), then
the record carrying `id = j` is emitted strictly before the record carrying
`id = i`; moreover the sequence of emitted `id`s is exactly the completion
order, and the record at each stream position `p` is the one generated from
the input index that completed `p`-th — so `id` identifies the originating
input index, not the arrival position. -/
theorem getResponseStream_completion_order {D R Err E : Type} (batch : List D)
    (handler : D → Except Err R) (normalize : Err → E) (order : List Nat)
    (hperm : order.Perm (List.range batch.length)) (i j : Nat)
    (hij : order.indexOf j < order.indexOf i) :
    ((getResponseStream batch handler normalize order).emitted.map itemId) = order ∧
    ((getResponseStream batch handler normalize order).emitted.map itemId).indexOf j
        < ((getResponseStream batch handler normalize order).emitted.map itemId).indexOf i ∧
    (∀ p : Nat, (getResponseStream batch handler normalize order).emitted.get? p
        = (order.get? p).bind (attemptAt batch handler normalize)) := by
  have hvalid : ∀ x ∈ order, x < batch.length := fun x hx =>
    List.mem_range.mp (hperm.mem_iff.mp hx)
  obtain ⟨h1, _, _⟩ := getResponseStream_run batch handler normalize order hperm
  have hids : ((getResponseStream batch handler normalize order).emitted.map itemId)
      = order := by
    rw [h1, filterMap_attemptAt_ids batch handler normalize order hvalid]
  refine ⟨hids, ?_, ?_⟩
  · rw [hids]
    exact hij
  · intro p
    rw [h1]
    exact filterMap_attemptAt_get? batch handler normalize order hvalid p

/-- C4 witness: batch of size 3 with completion order `[2, 0, 1]`; item 0
completes before item 1, so the record for 0 precedes the record for 1. -/
theorem getResponseStream_completion_order_witness :
    ([2, 0, 1] : List Nat).Perm (List.range ([10, 20, 30] : List Nat).length) ∧
    ([2, 0, 1] : List Nat).indexOf 0 < ([2, 0, 1] : List Nat).indexOf 1 ∧
    ((getResponseStream [10, 20, 30] (fun d : Nat => (Except.ok d : Except Unit Nat))
        (fun e : Unit => e) [2, 0, 1]).emitted.map itemId) = [2, 0, 1] :=
  ⟨by decide, by decide,
    (getResponseStream_completion_order [10, 20, 30]
      (fun d : Nat => (Except.ok d : Except Unit Nat)) (fun e : Unit => e) [2, 0, 1]
      (by decide) 1 0 (by decide)).1⟩

/-- C3: failure isolation.  If executing item `k` fails while every other
item succeeds, then the run emits exactly one record with `id = k`, that
record carries the normalized error (and hence no `result` field), every
record with a different `id` carries a `result` field, all `batch.length`
records are still emitted, and the stream still closes. -/
theorem getResponseStream_failure_isolation {D R Err E : Type} (batch : List D)
    (handler : D → Except Err R) (normalize : Err → E) (order : List Nat) (k : Nat)
    (hperm : order.Perm (List.range batch.length)) (hk : k < batch.length) (err : Err)
    (hfail : handler batch[k] = Except.error err)
    (hsucc : ∀ (i : Nat) (hi : i < batch.length), i ≠ k →
      (handler batch[i]).isOk = true) :
    ((getResponseStream batch handler normalize order).emitted.filter
        (fun it => itemId it == k)).length = 1 ∧
    BatchResponseItem.error k (normalize err)
        ∈ (getResponseStream batch handler normalize order).emitted ∧
    (∀ it ∈ (getResponseStream batch handler normalize order).emitted,
        itemId it = k → isErrorItem it = true) ∧
    (∀ it ∈ (getResponseStream batch handler normalize order).emitted,
        itemId it ≠ k → isResultItem it = true) ∧
    (getResponseStream batch handler normalize order).emitted.length = batch.length ∧
    (getResponseStream batch handler normalize order).closed = true := by
  have hvalid : ∀ x ∈ order, x < batch.length := fun x hx =>
    List.mem_range.mp (hperm.mem_iff.mp hx)
  obtain ⟨h1, _, h3⟩ := getResponseStream_run batch handler normalize order hperm
  have hids : ((getResponseStream batch handler normalize order).emitted.map itemId)
      = order := by
    rw [h1, filterMap_attemptAt_ids batch handler normalize order hvalid]
  have hkmem : k ∈ order := hperm.mem_iff.mpr (List.mem_range.mpr hk)
  have hkitem : attemptItem handler normalize k batch[k]
      = BatchResponseItem.error k (normalize err) := by
    unfold attemptItem
    rw [hfail]
  refine ⟨?_, ?_, ?_, ?_, ?_, ?_⟩
  · have hc1 : List.countP (fun x => x == k) order = 1 := by
      have hnodup : order.Nodup := hperm.nodup_iff.mpr (List.nodup_range _)
      have := List.count_eq_one_of_mem hnodup hkmem
      rwa [List.count_eq_countP] at this
    calc ((getResponseStream batch handler normalize order).emitted.filter
          (fun it => itemId it == k)).length
        = List.countP (fun it => itemId it == k)
            (getResponseStream batch handler normalize order).emitted :=
          (List.countP_eq_length_filter _ _).symm
      _ = List.countP (fun x => x == k)
            ((getResponseStream batch handler normalize order).emitted.map itemId) :=
          (List.countP_map (fun x => x == k) itemId _).symm
      _ = 1 := by rw [hids]; exact hc1
  · rw [h1]
    refine List.mem_filterMap.mpr ⟨k, hkmem, ?_⟩
    rw [attemptAt_eq_some batch handler normalize k hk, hkitem]
  · intro it hit hid
    rw [h1] at hit
    obtain ⟨id, hidlt, _, heq⟩ :=
      mem_emitted_attemptAt batch handler normalize order hvalid hit
    have hidk : id = k := by
      rw [heq, itemId_attemptItem] at hid
      exact hid
    subst hidk
    rw [heq, hkitem]
    rfl
  · intro it hit hid
    rw [h1] at hit
    obtain ⟨id, hidlt, _, heq⟩ :=
      mem_emitted_attemptAt batch handler normalize order hvalid hit
    have hidk : id ≠ k := by
      rw [heq, itemId_attemptItem] at hid
      exact hid
    have hok := hsucc id hidlt hidk
    rw [heq]
    unfold attemptItem
    cases hh : handler batch[id] with
    | ok r => rfl
    | error e => rw [hh] at hok; exact absurd hok (by simp [Except.isOk, Except.toBool])
  · have := congrArg List.length hids
    have hlen : order.length = batch.length := by
      rw [hperm.length_eq, List.length_range]
    simpa [hlen] using this
  · rw [h3]
    omega

/-- C3 witness: batch `[5, 0]` with a handler that fails exactly on payload
`0` (item index 1) and succeeds on item 0. -/
theorem getResponseStream_failure_isolation_witness :
    ([1, 0] : List Nat).Perm (List.range ([5, 0] : List Nat).length) ∧
    (1 : Nat) < ([5, 0] : List Nat).length ∧
    ((fun x : Nat => if x = 0 then (Except.error "zero" : Except String Nat)
        else Except.ok (10 / x)) 0 = Except.error "zero") ∧
    ((getResponseStream [5, 0]
        (fun x : Nat => if x = 0 then (Except.error "zero" : Except String Nat)
          else Except.ok (10 / x))
        (fun e : String => e) [1, 0]).emitted.filter
          (fun it => itemId it == 1)).length = 1 :=
  ⟨by decide, by decide, by rfl,
    (getResponseStream_failure_isolation [5, 0]
      (fun x : Nat => if x = 0 then (Except.error "zero" : Except String Nat)
        else Except.ok (10 / x))
      (fun e : String => e) [1, 0] 1 (by decide) (by decide) "zero" (by rfl)
      (by decide)).1⟩

/-- The bfetch `ErrorLike` shape: a normalized, serializable failure
representation carrying (at least) a `message` field. -/
structure ErrorLike : Type where
  message : String
deriving DecidableEq, Repr

/-- The underlying JS failure values `normalizeError` can receive: an
`Error`-like object with a message, a plain string, or any other value. -/
inductive JsFailure : Type where
  | errorObj (message : String)
  | stringVal (s : String)
  | otherVal
deriving DecidableEq, Repr

/-- Modelled from the spec: `normalizeError` is imported by the multiplexer
from the bfetch `common` package, whose source is not part of this snapshot.
Per the spec it is a pure normalization mapping any underlying failure to an
`ErrorLike` record with a `message` field, independent of the failure's
internal representation. -/
def normalizeError : JsFailure → ErrorLike
  | .errorObj m => { message := m }
  | .stringVal s => { message := s }
  | .otherVal => { message := "Unknown error." }

/-- C8: error normalization is deterministic — applied to the same underlying
failure value it produces structurally identical `ErrorLike` records with the
same message content. -/
theorem normalizeError_deterministic (e₁ e₂ : JsFailure) (h : e₁ = e₂) :
    normalizeError e₁ = normalizeError e₂ ∧
    (normalizeError e₁).message = (normalizeError e₂).message := by
  subst h
  exact ⟨rfl, rfl⟩

/-- C8 witness: the same `Error`-like failure fed twice. -/
theorem normalizeError_deterministic_witness :
    (JsFailure.errorObj "boom" = JsFailure.errorObj "boom") ∧
    normalizeError (JsFailure.errorObj "boom")
      = normalizeError (JsFailure.errorObj "boom") :=
  ⟨by decide,
    (normalizeError_deterministic (JsFailure.errorObj "boom")
      (JsFailure.errorObj "boom") (by decide)).1⟩

/-- Modelled from the spec: the concrete-scenario per-item handler `10 / x`
of §8, which fails with a division error on `x = 0` and returns the quotient
otherwise (the handler is spec pseudo-code supplied by the route owner, not
repository code; the claim is about how the multiplexer handles it). -/
def divTenHandler (divErr : JsFailure) (x : Nat) : Except JsFailure Nat :=
  if x = 0 then Except.error divErr else Except.ok (10 / x)

/-- C6: processing the batch `[1, 0, 2]` with the `10 / x` handler yields, in
some emission order, exactly the records `{id: 0, result: 10}`,
`{id: 1, error}` (item 1 has payload `0` and fails) and `{id: 2, result: 5}`,
the error record carries a `message` field, and the stream closes after these
3 records. -/
theorem getResponseStream_divTen_scenario (f : JsFailure) (order : List Nat)
    (hperm : order.Perm (List.range 3)) :
    (getResponseStream [1, 0, 2] (divTenHandler f) normalizeError order).emitted.Perm
        [BatchResponseItem.result 0 10, BatchResponseItem.error 1 (normalizeError f),
          BatchResponseItem.result 2 5] ∧
    (getResponseStream [1, 0, 2] (divTenHandler f) normalizeError order).emitted.length
        = 3 ∧
    (getResponseStream [1, 0, 2] (divTenHandler f) normalizeError order).closed = true ∧
    (∃ m : String, BatchResponseItem.error 1 (ErrorLike.mk m)
        ∈ (getResponseStream [1, 0, 2] (divTenHandler f) normalizeError order).emitted) := by
  have hperm' : order.Perm (List.range ([1, 0, 2] : List Nat).length) := hperm
  obtain ⟨h1, _, h3⟩ :=
    getResponseStream_run [1, 0, 2] (divTenHandler f) normalizeError order hperm'
  have hbase : (List.range 3).filterMap
        (attemptAt [1, 0, 2] (divTenHandler f) normalizeError)
      = [BatchResponseItem.result 0 10, BatchResponseItem.error 1 (normalizeError f),
          BatchResponseItem.result 2 5] := rfl
  have hpermEmit : (getResponseStream [1, 0, 2] (divTenHandler f) normalizeError
      order).emitted.Perm
        [BatchResponseItem.result 0 10, BatchResponseItem.error 1 (normalizeError f),
          BatchResponseItem.result 2 5] := by
    rw [h1, ← hbase]
    exact hperm.filterMap _
  refine ⟨hpermEmit, ?_, ?_, ?_⟩
  · simpa using hpermEmit.length_eq
  · rw [h3]
    decide
  · exact ⟨(normalizeError f).message,
      hpermEmit.mem_iff.mpr (by simp [List.mem_cons])⟩

/-- C6 witness: completion order `[1, 2, 0]`. -/
theorem getResponseStream_divTen_scenario_witness :
    ([1, 2, 0] : List Nat).Perm (List.range 3) ∧
    (getResponseStream [1, 0, 2] (divTenHandler JsFailure.otherVal) normalizeError
        [1, 2, 0]).emitted.Perm
        [BatchResponseItem.result 0 10,
          BatchResponseItem.error 1 (normalizeError JsFailure.otherVal),
          BatchResponseItem.result 2 5] :=
  ⟨by decide,
    (getResponseStream_divTen_scenario JsFailure.otherVal [1, 2, 0] (by decide)).1⟩

/-- JS values that can arrive as the POST body of a batch-processing route:
an object without a `batch` property, a `batch` that is not an array, or a
proper array of batch items. -/
inductive BatchBody (D : Type) : Type where
  | noBatchField
  | batchNotSequence
  | batchList (items : List D)

/-- The Route Binding Layer's inbound validation, from the source:
`validate: { body: schema.any() }` — every body value is accepted at the
route boundary. -/
def routeBodyAccepts {D : Type} : BatchBody D → Bool := fun _ => true

/-- A JS runtime failure raised outside the per-item try/catch. -/
inductive JsRuntimeError : Type where
  | typeError
deriving DecidableEq, Repr

/-- What happens when an accepted body reaches the multiplexer:
`getResponseStream: ({ batch }) => ...` destructures the body and evaluates
`batch.length` and `batch.forEach`; when the `batch` field is missing or not
an array this raises a `TypeError` before any item handler runs, otherwise
the batch is multiplexed as usual. -/
def getResponseStreamOnBody {D R Err E : Type} (body : BatchBody D)
    (handler : D → Except Err R) (normalize : Err → E) (order : List Nat) :
    Except JsRuntimeError (MuxState R E) :=
  match body with
  | .batchList items => Except.ok (getResponseStream items handler normalize order)
  | .noBatchField => Except.error JsRuntimeError.typeError
  | .batchNotSequence => Except.error JsRuntimeError.typeError

/-- C5 counterexample: the route boundary does *not* reject a malformed batch
payload — `schema.any()` accepts a body with no `batch` field and a body
whose `batch` is not a sequence, so no request-level rejection happens before
multiplexing. -/
theorem routeBodyAccepts_malformed :
    routeBodyAccepts (BatchBody.noBatchField : BatchBody Nat) = true ∧
    routeBodyAccepts (BatchBody.batchNotSequence : BatchBody Nat) = true :=
  ⟨rfl, rfl⟩

/-- C5 (amended): the Route Binding Layer validates the body with
`schema.any()`, accepting every payload at the boundary; a missing or
non-sequence batch instead fails with a `TypeError` when the multiplexer
destructures the body — still before any batch item handler runs (no record
is emitted) — while well-formed batches are multiplexed normally. -/
theorem routeBodyAccepts_amended {D R Err E : Type} (handler : D → Except Err R)
    (normalize : Err → E) (order : List Nat) :
    routeBodyAccepts (BatchBody.noBatchField : BatchBody D) = true ∧
    routeBodyAccepts (BatchBody.batchNotSequence : BatchBody D) = true ∧
    getResponseStreamOnBody (BatchBody.noBatchField : BatchBody D) handler normalize
        order = Except.error JsRuntimeError.typeError ∧
    getResponseStreamOnBody (BatchBody.batchNotSequence : BatchBody D) handler
        normalize order = Except.error JsRuntimeError.typeError ∧
    (∀ items : List D,
      getResponseStreamOnBody (BatchBody.batchList items) handler normalize order
        = Except.ok (getResponseStream items handler normalize order)) :=
  ⟨rfl, rfl, rfl, rfl, fun _ => rfl⟩

/-- An HTTP response as built by the streaming route handler: a headers map
and a streamed body. -/
structure StreamingHttpResponse (B : Type) : Type where
  headers : List (String × String)
  body : B

/-- The `headers` object of `addStreamingResponseRoute`'s handler, from the
source. -/
def streamingResponseHeaders : List (String × String) :=
  [("Content-Type", "application/x-ndjson"), ("Connection", "keep-alive"),
    ("Transfer-Encoding", "chunked"), ("Cache-Control", "no-cache")]

/-- The `response.ok({ headers, body: createNDJSONStream(data, handlerInstance,
logger) })` call of the streaming route handler: the response pairs the fixed
streaming headers with the newline-delimited record stream encoded from the
request body (`createNDJSONStream` is outside this snapshot, so the encoder
is kept abstract as `encode`). -/
def streamingRouteResponse {Payload B : Type} (encode : Payload → B)
    (data : Payload) : StreamingHttpResponse B :=
  { headers := streamingResponseHeaders, body := encode data }

/-- C7: every HTTP response produced by a streaming-response route carries
exactly the headers `Content-Type: application/x-ndjson`,
`Connection: keep-alive`, `Transfer-Encoding: chunked` and
`Cache-Control: no-cache`, with the encoded record stream as its body. -/
theorem streamingRouteResponse_headers {Payload B : Type} (encode : Payload → B)
    (data : Payload) :
    (streamingRouteResponse encode data).headers
        = [("Content-Type", "application/x-ndjson"), ("Connection", "keep-alive"),
            ("Transfer-Encoding", "chunked"), ("Cache-Control", "no-cache")] ∧
    (streamingRouteResponse encode data).body = encode data :=
  ⟨rfl, rfl⟩

/-- The type `ECSField<T> = T | null | undefined | Array<T | null>`: a field
value coming from Elasticsearch.  An array element is either a value or
`null`. -/
inductive ECSField (T : Type) : Type where
  | undef
  | null
  | value (v : T)
  | array (vs : List (Option T))

/-- The `for (const value of valueOrCollection) { if (value !== null) return
value; }` loop of `firstNonNullValue`, falling through to the implicit
`undefined` return. -/
def firstNonNullOfList {T : Type} : List (Option T) → Option T
  | [] => none
  | some v :: _ => some v
  | none :: rest => firstNonNullOfList rest

/-- The source's `firstNonNullValue`: `null` maps to `undefined`; an array is
scanned for its first non-null element; any other value — including
`undefined`, which is `!== null` and not an array — is returned unchanged by
the trailing `else` branch. -/
def firstNonNullValue {T : Type} : ECSField T → Option T
  | .null => none
  | .array vs => firstNonNullOfList vs
  | .undef => none
  | .value v => some v

/-- The scanning loop agrees with "first element that is not null". -/
theorem firstNonNullOfList_eq_findSome {T : Type} :
    ∀ vs : List (Option T), firstNonNullOfList vs = vs.findSome? id := by
  intro vs
  induction vs with
  | nil => rfl
  | cons x rest ih =>
    cases x with
    | some v => rfl
    | none => simpa [firstNonNullOfList, List.findSome?_cons] using ih

/-- C9: public behaviour of `firstNonNullValue`: `null` and `undefined` map
to `undefined`; an array yields its first non-null element — `undefined` when
the array is empty or all-null; any other value is returned unchanged. -/
theorem firstNonNullValue_spec {T : Type} :
    firstNonNullValue (ECSField.null : ECSField T) = none ∧
    firstNonNullValue (ECSField.undef : ECSField T) = none ∧
    (∀ v : T, firstNonNullValue (ECSField.value v) = some v) ∧
    (∀ vs : List (Option T),
      firstNonNullValue (ECSField.array vs) = vs.findSome? id) ∧
    (∀ vs : List (Option T), (∀ x ∈ vs, x = none) →
      firstNonNullValue (ECSField.array vs) = none) := by
  refine ⟨rfl, rfl, fun v => rfl, fun vs => firstNonNullOfList_eq_findSome vs, ?_⟩
  intro vs hall
  rw [show firstNonNullValue (ECSField.array vs) = firstNonNullOfList vs from rfl,
    firstNonNullOfList_eq_findSome vs]
  induction vs with
  | nil => rfl
  | cons x rest ih =>
    have hx : x = none := hall x (List.mem_cons_self x rest)
    subst hx
    simpa [List.findSome?_cons] using
      ih (fun y hy => hall y (List.mem_cons_of_mem none hy))

/-- C9 witness: `firstNonNullValue` applied to an array whose first non-null
element sits behind a leading `null`. -/
theorem firstNonNullValue_spec_witness :
    (∀ x ∈ ([none, none] : List (Option Nat)), x = none) ∧
    firstNonNullValue (ECSField.array ([none, none] : List (Option Nat))) = none :=
  ⟨by decide,
    (firstNonNullValue_spec (T := Nat)).2.2.2.2 [none, none] (by decide)⟩

/-- A dashboard reference attached to a data-stream entry. -/
structure DataStreamDashboard : Type where
  id : String
  title : String
deriving DecidableEq, Repr

/-- The fleet `DataStream` response entry assembled per stream by
`getListHandler` (the `namespace` field is a Lean keyword, hence
`namespace_`). -/
structure DataStream : Type where
  index : String
  dataset : String
  namespace_ : String
  type : String
  package : String
  package_version : String
  last_activity_ms : Int
  size_in_bytes : Int
  dashboards : List DataStreamDashboard
deriving DecidableEq, Repr

/-- The ok-response body of `getListHandler`. -/
structure GetDataStreamsResponse : Type where
  data_streams : List DataStream
deriving DecidableEq, Repr

/-- The filter `({ dataset, namespace, type }) => dataset && namespace && type`:
JS string truthiness keeps an entry exactly when all three are non-empty. -/
def keepEntry (d : DataStream) : Bool :=
  d.dataset != "" && d.namespace_ != "" && d.type != ""

/-- The comparator `(a, b) => b.last_activity_ms - a.last_activity_ms`:
`a` sorts before `b` exactly when `a`'s last activity is at least `b`'s. -/
def byActivityDesc (a b : DataStream) : Prop :=
  b.last_activity_ms ≤ a.last_activity_ms

instance : DecidableRel byActivityDesc := fun a b =>
  inferInstanceAs (Decidable (b.last_activity_ms ≤ a.last_activity_ms))

instance : IsTotal DataStream byActivityDesc :=
  ⟨fun a b => le_total b.last_activity_ms a.last_activity_ms⟩

instance : IsTrans DataStream byActivityDesc :=
  ⟨fun _ _ _ h1 h2 => le_trans h2 h1⟩

/-- The final assembly of `getListHandler`'s ok body, from the source: filter
out entries missing dataset/namespace/type, then sort by last activity
descending.  (The JS comparator sort is modelled by insertion sort, which
likewise returns a permutation sorted by the comparator.) -/
def getListHandler (dataStreamResponses : List DataStream) : GetDataStreamsResponse :=
  { data_streams :=
      List.insertionSort byActivityDesc (dataStreamResponses.filter keepEntry) }

/-- C10: every entry of a `getListHandler` ok response has non-empty
`dataset`, `namespace` and `type` (entries missing any are filtered out: the
result is a permutation of exactly the passing entries), and the list is
sorted by `last_activity_ms` in descending order. -/
theorem getListHandler_filtered_sorted (entries : List DataStream) :
    (∀ d ∈ (getListHandler entries).data_streams,
        d.dataset ≠ "" ∧ d.namespace_ ≠ "" ∧ d.type ≠ "") ∧
    (getListHandler entries).data_streams.Sorted byActivityDesc ∧
    (getListHandler entries).data_streams.Perm (entries.filter keepEntry) := by
  refine ⟨?_, List.sorted_insertionSort byActivityDesc _,
    List.perm_insertionSort byActivityDesc _⟩
  intro d hd
  have hmem : d ∈ entries.filter keepEntry :=
    (List.perm_insertionSort byActivityDesc (entries.filter keepEntry)).subset hd
  have hkeep : keepEntry d = true := List.of_mem_filter hmem
  have := hkeep
  simp only [keepEntry, Bool.and_eq_true, bne_iff_ne, ne_eq] at this
  exact ⟨this.1.1, this.1.2, this.2⟩

/-- C10 witness: two entries, one of which lacks a dataset and is filtered
out; the surviving entry has all three fields non-empty. -/
theorem getListHandler_filtered_sorted_witness :
    (DataStream.mk "idx-a" "ds" "default" "logs" "" "" 5 0 []) ∈
        (getListHandler [DataStream.mk "idx-a" "ds" "default" "logs" "" "" 5 0 [],
          DataStream.mk "idx-b" "" "default" "logs" "" "" 9 0 []]).data_streams ∧
    ((DataStream.mk "idx-a" "ds" "default" "logs" "" "" 5 0 []).dataset ≠ "" ∧
      (DataStream.mk "idx-a" "ds" "default" "logs" "" "" 5 0 []).namespace_ ≠ "" ∧
      (DataStream.mk "idx-a" "ds" "default" "logs" "" "" 5 0 []).type ≠ "") :=
  ⟨by decide,
    (getListHandler_filtered_sorted
      [DataStream.mk "idx-a" "ds" "default" "logs" "" "" 5 0 [],
        DataStream.mk "idx-b" "" "default" "logs" "" "" 9 0 []]).1
      (DataStream.mk "idx-a" "ds" "default" "logs" "" "" 5 0 []) (by decide)⟩
